import Mathlib

/-
Verification of build_prism_catalogs.py, a crawler that scrapes Apache-style
directory listings and emits per-frequency catalogs of zip files.

The embedding works over parsed pages rather than raw HTML: a fetched listing
page is the list of its anchor elements in document order, each anchor carrying
its href attribute and, when the anchor sits inside a table row, the texts of
that row's td cells in order.  The HTTP layer is a function from URLs to an
optional page (None models an exhausted-retries failure), and the retry loop of
_get is modelled separately over an abstract per-attempt network outcome.

Finite Python floats produced by float() on the decimal literals that appear
in size columns are modelled exactly as scaled integers m / 10^k (the Dec
structure); round() is round-half-to-even, as in Python 3.  The model of
float() covers the sign-digits-dot-digits forms, the inf / Infinity / nan
literals, and the overflow of out-of-range decimals to infinity at the IEEE
double boundary 2^1024 - 2^970; round() on an infinite value raises
OverflowError, which _parse_size catches nowhere (it catches only
ValueError), so that path is an uncaught exception and is modelled as such.
Exponent notation, embedded underscores and inner whitespace accepted by
CPython are out of scope, and finite values are kept as exact decimals rather
than rounded doubles, so double-rounding differences within a hair of the
overflow boundary are out of scope too.
-/

set_option maxRecDepth 4000

namespace Prism

/-! ## Python string primitives, on lists of characters -/

/-- Python str.strip(): drop whitespace from both ends. -/
def pyStrip (cs : List Char) : List Char :=
  ((cs.dropWhile Char.isWhitespace).reverse.dropWhile Char.isWhitespace).reverse

/-- Python str.rstrip("/"): drop every trailing slash. -/
def rstripSlash (cs : List Char) : List Char :=
  (cs.reverse.dropWhile (fun c => c = '/')).reverse

/-- Python os.path.basename: the segment after the last slash. -/
def basename (cs : List Char) : List Char :=
  (cs.reverse.takeWhile (fun c => c ≠ '/')).reverse

/-- Python str.lower(), character by character (ASCII range). -/
def lowerData (cs : List Char) : List Char := cs.map Char.toLower

/-- Python href.lower().endswith(".zip"). -/
def endsWithZip (cs : List Char) : Bool :=
  ['.', 'z', 'i', 'p'].isSuffixOf (lowerData cs)

/-- Python str.isdigit() restricted to ASCII digits: nonempty and all digits. -/
def pyIsdigit (cs : List Char) : Bool := !cs.isEmpty && cs.all Char.isDigit

/-- Numeric value of a string of ASCII digits. -/
def digitsVal (cs : List Char) : ℕ := cs.foldl (fun n c => 10 * n + (c.toNat - 48)) 0

/-! ## Exact decimal values and Python numeric conversions -/

/-- An exact decimal value num / 10 ^ exp, the value of a parsed decimal
literal (the model of the Python float produced from such a literal). -/
structure Dec where
  num : ℤ
  exp : ℕ
deriving Repr, DecidableEq

/-- Unsigned decimal literal: digits, optionally followed by a dot and more
digits, with at least one digit overall.  Anything else fails, as float()
raises ValueError. -/
def decPart (cs : List Char) : Option Dec :=
  let ip := cs.takeWhile Char.isDigit
  let rest := cs.dropWhile Char.isDigit
  match rest with
  | [] => if ip.isEmpty then none else some ⟨digitsVal ip, 0⟩
  | '.' :: fp =>
    if fp.all Char.isDigit && (!ip.isEmpty || !fp.isEmpty) then
      some ⟨(digitsVal ip * 10 ^ fp.length + digitsVal fp : ℕ), fp.length⟩
    else none
  | _ => none

/-- The value of a Python float produced by float() on a string: an exact
finite decimal, an infinity, or nan. -/
inductive FloatVal where
  | finite (d : Dec)
  | posInf
  | negInf
  | nan
deriving Repr, DecidableEq

/-- Negation of a float value, for a leading minus sign (the sign of nan is
not observable here). -/
def FloatVal.neg : FloatVal → FloatVal
  | finite d => finite ⟨-d.num, d.exp⟩
  | posInf => negInf
  | negInf => posInf
  | nan => nan

/-- The smallest magnitude that rounds to an IEEE double infinity: the
midpoint between the largest finite double 2^1024 - 2^971 and 2^1024; at and
beyond it, round-to-nearest-even overflows to inf.  Written with shallow
exponents as (2^64)^16 - (2^64)^15 * 2^10, which equals 2^1024 - 2^970
(proved below as OVERFLOW_MIDPOINT_eq). -/
def OVERFLOW_MIDPOINT : ℕ := 18446744073709551616 ^ 16 - 18446744073709551616 ^ 15 * 1024

/-- Whether the exact decimal num / 10 ^ exp lies outside the finite double
range, so that conversion or arithmetic overflows to an infinity:
the magnitude of num / 10 ^ exp reaches the overflow midpoint. -/
def decOverflows (d : Dec) : Bool :=
  decide (OVERFLOW_MIDPOINT * 10 ^ d.exp ≤ d.num.natAbs)

/-- Python float() on an unsigned body: a decimal literal converts to its
value, overflowing to inf beyond the double range; the inf, infinity and nan
literals (case-insensitive) convert to the special values; anything else
fails with ValueError. -/
def unsignedFloatVal (cs : List Char) : Option FloatVal :=
  match decPart cs with
  | some d => some (if decOverflows d then FloatVal.posInf else FloatVal.finite d)
  | none =>
    if cs.map Char.toLower = ['i', 'n', 'f'] ∨
        cs.map Char.toLower = ['i', 'n', 'f', 'i', 'n', 'i', 't', 'y'] then
      some FloatVal.posInf
    else if cs.map Char.toLower = ['n', 'a', 'n'] then some FloatVal.nan
    else none

/-- Python float() with an optional leading sign. -/
def pyFloat (cs : List Char) : Option FloatVal :=
  match cs with
  | '-' :: rest => (unsignedFloatVal rest).map FloatVal.neg
  | '+' :: rest => unsignedFloatVal rest
  | _ => unsignedFloatVal cs

/-- Digits-only body of Python int(). -/
def pyIntDigits (cs : List Char) : Option ℤ :=
  if !cs.isEmpty && cs.all Char.isDigit then some (digitsVal cs : ℤ) else none

/-- Python int() on a base-10 literal with an optional sign. -/
def pyInt (cs : List Char) : Option ℤ :=
  match cs with
  | '-' :: rest => (pyIntDigits rest).map (fun n => -n)
  | '+' :: rest => pyIntDigits rest
  | _ => pyIntDigits cs

/-- Python round() of the rational n / b for b > 0: nearest integer, ties to
even. -/
def roundDiv (n : ℤ) (b : ℤ) : ℤ :=
  let f := Int.fdiv n b
  let r2 := 2 * (n - f * b)
  if r2 < b then f
  else if b < r2 then f + 1
  else if f % 2 = 0 then f else f + 1

/-! ## The size parser (_parse_size) -/

/-- The _UNIT lookup table: k, m, g map to 1024, 1024^2, 1024^3. -/
def _UNIT (c : Char) : Option ℤ :=
  if c = 'k' then some 1024
  else if c = 'm' then some 1048576
  else if c = 'g' then some 1073741824
  else none

/-- Observable outcome of one _parse_size call: a returned value, or an
uncaught OverflowError propagating to the caller. -/
inductive SizeOutcome where
  | val (o : Option ℤ)
  | overflowErr
deriving Repr, DecidableEq

/-- Full embedding of _parse_size, the error path included: strip; empty or
"-" returns None; a recognised unit suffix sends the remainder through
float() — a float whose value (or whose product with the unit) is infinite
reaches round(), which raises OverflowError, caught by nothing since the
code catches only ValueError; a nan reaches round(), which raises
ValueError, caught, returning None, as is a float() parse failure; a finite
in-range product returns its rounding.  Without a unit suffix the whole
string goes through int(), a failure returning None. -/
def _parse_size_run (raw : String) : SizeOutcome :=
  let s := pyStrip raw.data
  if s.isEmpty || s = ['-'] then .val none
  else
    match _UNIT (s.getLastD ' ').toLower with
    | some u =>
      match pyFloat s.dropLast with
      | some (.finite d) =>
        if decOverflows ⟨d.num * u, d.exp⟩ then .overflowErr
        else .val (some (roundDiv (d.num * u) ((10 : ℤ) ^ d.exp)))
      | some .posInf => .overflowErr
      | some .negInf => .overflowErr
      | some .nan => .val none
      | none => .val none
    | none => .val (pyInt s)

/-- The value _parse_size returns on the inputs where it returns (and unknown
on the inputs where the real function raises); the rest of the scraper is
stated over this total parser. -/
def _parse_size (raw : String) : Option ℤ :=
  match _parse_size_run raw with
  | .val o => o
  | .overflowErr => none

/-! ## Parsed listing pages -/

/-- One anchor element of a parsed listing page: its href attribute and, when
the anchor sits inside a table row, the texts of that row's td cells in
document order (None when find_parent("tr") finds no row). -/
structure Anchor where
  href : String
  row : Option (List String)
deriving Repr, DecidableEq

/-- The fixed navigation / sort / parent-directory hrefs that are skipped. -/
def _NAV_HREFS : List String :=
  ["../", "/",
   "?C=N;O=D", "?C=N;O=A",
   "?C=M;O=D", "?C=M;O=A",
   "?C=S;O=D", "?C=S;O=A",
   "?C=D;O=D", "?C=D;O=A"]

/-- The filter of scrape_dir, negated: an anchor is kept when its stripped
href is not a navigation token and ends case-insensitively in ".zip". -/
def keepHref (href : String) : Bool :=
  !(_NAV_HREFS.contains href) && endsWithZip href.data

/-- filename = os.path.basename(href.rstrip("/")). -/
def filenameOf (href : String) : String :=
  String.mk (basename (rstripSlash href.data))

/-! ## The directory scraper (scrape_dir) -/

/-- Fallback size scan of scrape_dir for rows with fewer than four cells: walk
the cells in order; a cell whose stripped text is nonempty and not "-" is
parsed, and the loop stops at the first truthy (non-None, nonzero) parse. -/
def scanCells : List String → Option ℤ
  | [] => none
  | cell :: rest =>
    let txt := String.mk (pyStrip cell.data)
    if txt = "" || txt = "-" then scanCells rest
    else
      match _parse_size txt with
      | some n => if n = 0 then scanCells rest else some n
      | none => scanCells rest

/-- Size extraction of scrape_dir for one anchor: no enclosing row gives none;
a row with at least 4 cells sends the 4th cell's text through _parse_size;
otherwise the fallback scan runs over all cells. -/
def rowSize : Option (List String) → Option ℤ
  | none => none
  | some cells =>
    if 4 ≤ cells.length then _parse_size (cells.getD 3 "")
    else scanCells cells

/-- Whether a cell qualifies in the fallback scan, as the specification words
it: stripped text nonempty, not "-", and parsing to a non-zero size. -/
def cellSupplies (cell : String) : Bool :=
  let txt := String.mk (pyStrip cell.data)
  txt != "" && txt != "-" &&
    (match _parse_size txt with
     | some n => n != 0
     | none => false)

/-- The size-extraction policy as the specification words it: with at least 4
cells, the 4th cell's parse is used as is; otherwise the first qualifying cell
supplies the size; with no row or no qualifying cell the size is unknown. -/
def rowSizeSpec : Option (List String) → Option ℤ
  | none => none
  | some cells =>
    if 4 ≤ cells.length then _parse_size (cells.getD 3 "")
    else
      match cells.find? cellSupplies with
      | some cell => _parse_size (String.mk (pyStrip cell.data))
      | none => none

/-- Python dict assignment d[k] = v on an insertion-ordered association list:
replace the value in place when the key is present, append otherwise. -/
def dictInsert : List (String × Option ℤ) → String → Option ℤ → List (String × Option ℤ)
  | [], k, v => [(k, v)]
  | e :: es, k, v => if e.1 = k then (k, v) :: es else e :: dictInsert es k v

/-- Python dict read d[k], as an option. -/
def dictLookup (d : List (String × Option ℤ)) (k : String) : Option (Option ℤ) :=
  (d.find? (fun e => e.1 == k)).map Prod.snd

/-- The entry one anchor contributes to the directory mapping: the stripped
href must pass the navigation and extension filter, and then the key is the
basename and the value the extracted size. -/
def anchorEntry (a : Anchor) : Option (String × Option ℤ) :=
  let href := String.mk (pyStrip a.href.data)
  if keepHref href then some (filenameOf href, rowSize a.row) else none

/-- Embedding of scrape_dir over the fetched page: a failed fetch gives the
empty mapping; otherwise each anchor in document order either is skipped or
assigns its entry into the result dict. -/
def scrape_dir (resp : Option (List Anchor)) : List (String × Option ℤ) :=
  match resp with
  | none => []
  | some anchors =>
    anchors.foldl
      (fun d a =>
        match anchorEntry a with
        | some e => dictInsert d e.1 e.2
        | none => d) []

/-! ## The year enumerator (list_years) -/

/-- The year candidate one anchor contributes: the stripped href with trailing
slashes removed, kept when it is exactly 4 digits. -/
def yearHref (a : Anchor) : Option String :=
  let href := rstripSlash (pyStrip a.href.data)
  if pyIsdigit href && href.length == 4 then some (String.mk href) else none

/-- The years a page lists, in document order, duplicates included. -/
def yearCandidates (anchors : List Anchor) : List String :=
  anchors.filterMap yearHref

/-- Lexicographic comparison of character lists by code point, the order
Python sorted() uses on strings. -/
def pyLe : List Char → List Char → Bool
  | [], _ => true
  | _ :: _, [] => false
  | a :: as, b :: bs => if a = b then pyLe as bs else decide (a < b)

/-- The sorting order of list_years on strings. -/
def strLe (a b : String) : Prop := pyLe a.data b.data = true

instance decStrLe : DecidableRel strLe :=
  fun a b => inferInstanceAs (Decidable (pyLe a.data b.data = true))

/-- Embedding of list_years: a failed fetch gives the empty list; otherwise
the 4-digit candidates are collected in document order and sorted. -/
def list_years (resp : Option (List Anchor)) : List String :=
  match resp with
  | none => []
  | some anchors => List.insertionSort strLe (yearCandidates anchors)

/-! ## The fetch client (_get) -/

def MAX_RETRIES : ℕ := 3

/-- RETRY_BACKOFF = 1.5 seconds, as the exact decimal 15 / 10. -/
def RETRY_BACKOFF : Dec := ⟨15, 1⟩

/-- The sleep before the next try after a failed attempt (1-based):
RETRY_BACKOFF * 2 ^ (attempt - 1). -/
def backoffDelay (attempt : ℕ) : Dec :=
  ⟨RETRY_BACKOFF.num * 2 ^ (attempt - 1), RETRY_BACKOFF.exp⟩

/-- The diagnostic _get prints to stderr when retries are exhausted. -/
def warnMsg (url err : String) : String := "  [WARN] " ++ url ++ ": " ++ err

/-- Observable outcome of one _get call: the response body when an attempt
succeeded, how many attempts ran, the sleeps taken between attempts, and the
diagnostic emitted on final failure. -/
structure GetResult where
  response : Option String
  attempts : ℕ
  sleeps : List Dec
  warning : Option String
deriving Repr, DecidableEq

/-- The retry loop of _get.  net gives each 1-based attempt's outcome: a
response body, or the exception message of a network error / non-2xx status.
The fuel equals the number of loop iterations left; the fuel-exhausted arm
mirrors falling off the for loop (unreachable from _get since the attempt
counter reaches MAX_RETRIES first). -/
def _get_loop (net : ℕ → Except String String) (url : String) :
    ℕ → ℕ → List Dec → GetResult
  | _, 0, sleeps => ⟨none, MAX_RETRIES, sleeps, none⟩
  | attempt, fuel + 1, sleeps =>
    match net attempt with
    | .ok body => ⟨some body, attempt, sleeps, none⟩
    | .error e =>
      if attempt = MAX_RETRIES then ⟨none, attempt, sleeps, some (warnMsg url e)⟩
      else _get_loop net url (attempt + 1) fuel (sleeps ++ [backoffDelay attempt])

/-- Embedding of _get: up to MAX_RETRIES attempts starting at attempt 1. -/
def _get (net : ℕ → Except String String) (url : String) : GetResult :=
  _get_loop net url 1 MAX_RETRIES []

/-! ## Building one frequency catalog (build_records) -/

/-- One output record: filename, resolved url, optional size. -/
structure CatalogRecord where
  filename : String
  url : String
  size_bytes : Option ℤ
deriving Repr, DecidableEq

def ALL_VARIABLES : List String :=
  ["ppt", "solslope", "soltotal", "tdmean",
   "tmax", "tmean", "tmin", "vpdmax", "vpdmin"]

/-- The frequency listing URL for one variable. -/
def freqUrl (base_url v frequency : String) : String :=
  base_url ++ "/" ++ v ++ "/" ++ frequency ++ "/"

/-- The worker body fetch_year: scrape the year directory and turn each
(filename, size) pair into a record whose url joins the filename onto the
directory URL.  The join argument stands for urllib.parse.urljoin and the
fetch argument for the composition of _get and HTML parsing. -/
def fetch_year (join : String → String → String)
    (fetch : String → Option (List Anchor)) (year_url : String) :
    List CatalogRecord :=
  (scrape_dir (fetch year_url)).map (fun e => ⟨e.1, join year_url e.1, e.2⟩)

/-- The task list of build_records: for each variable in order, each year that
list_years finds under the variable's frequency listing yields one year
directory URL (a variable with no years contributes nothing). -/
def buildTasks (fetch : String → Option (List Anchor))
    (base_url frequency : String) : List String :=
  ALL_VARIABLES.flatMap (fun v =>
    let f := freqUrl base_url v frequency
    (list_years (fetch f)).map (fun year => f ++ year ++ "/"))

/-- Embedding of the aggregation of build_records: the records of every task,
concatenated in the order the thread pool completes the tasks.  The order
argument is that completion order; a run of the Python code corresponds to an
order that is some permutation of buildTasks. -/
def build_records (join : String → String → String)
    (fetch : String → Option (List Anchor)) (order : List String) :
    List CatalogRecord :=
  order.flatMap (fetch_year join fetch)

/-! ## Order lemmas for the year sort -/

theorem pyLe_total (as bs : List Char) : pyLe as bs = true ∨ pyLe bs as = true := by
  induction as generalizing bs with
  | nil => exact Or.inl rfl
  | cons a as ih =>
    cases bs with
    | nil => exact Or.inr rfl
    | cons b bs =>
      by_cases hab : a = b
      · subst hab
        rcases ih bs with h | h
        · exact Or.inl (by simpa [pyLe] using h)
        · exact Or.inr (by simpa [pyLe] using h)
      · rcases lt_trichotomy a b with h | h | h
        · exact Or.inl (by simp [pyLe, hab, h])
        · exact absurd h hab
        · exact Or.inr (by simp [pyLe, Ne.symm hab, h])

theorem pyLe_trans (as bs cs : List Char) (h1 : pyLe as bs = true)
    (h2 : pyLe bs cs = true) : pyLe as cs = true := by
  induction as generalizing bs cs with
  | nil => rfl
  | cons a as ih =>
    cases bs with
    | nil => simp [pyLe] at h1
    | cons b bs =>
      cases cs with
      | nil => simp [pyLe] at h2
      | cons c cs =>
        by_cases hab : a = b
        · subst hab
          by_cases hbc : a = c
          · subst hbc
            simp only [pyLe, if_pos rfl] at h1 h2 ⊢
            exact ih bs cs h1 h2
          · simp only [pyLe, if_pos rfl] at h1
            simpa [pyLe, hbc] using h2
        · by_cases hbc : b = c
          · subst hbc
            simpa [pyLe, hab] using h1
          · simp only [pyLe, if_neg hab, if_neg hbc, decide_eq_true_eq] at h1 h2
            have hac : a < c := lt_trans h1 h2
            simp [pyLe, ne_of_lt hac, hac]

instance : IsTotal String strLe := ⟨fun a b => pyLe_total a.data b.data⟩

instance : IsTrans String strLe := ⟨fun a b c h1 h2 => pyLe_trans a.data b.data c.data h1 h2⟩

/-! ## C1: year enumeration -/

/-- C1 counterexample: on a page listing 2020/, 1998/, 2020/, readme.txt, the
code returns the year 2020 twice, not "exactly once" — list_years sorts but
never deduplicates. -/
theorem C1_duplicate_year_counterexample :
    list_years (some [⟨"2020/", none⟩, ⟨"1998/", none⟩, ⟨"2020/", none⟩,
        ⟨"readme.txt", none⟩]) = ["1998", "2020", "2020"] ∧
    ¬ (list_years (some [⟨"2020/", none⟩, ⟨"1998/", none⟩, ⟨"2020/", none⟩,
        ⟨"readme.txt", none⟩])).count "2020" = 1 := by
  constructor
  · decide
  · decide

/-- C1 (amended): for every fetched listing page, list_years returns the
anchor hrefs that, after stripping whitespace and trailing slashes, are
exactly 4 digits, sorted ascending by code point; duplicates are preserved
(one output element per matching anchor), not collapsed. -/
theorem C1_years_sorted_with_duplicates (anchors : List Anchor) :
    (list_years (some anchors)).Sorted strLe ∧
    (list_years (some anchors)).Perm (yearCandidates anchors) :=
  ⟨List.sorted_insertionSort strLe (yearCandidates anchors),
   List.perm_insertionSort strLe (yearCandidates anchors)⟩

/-! ## C2: the size parser raises on infinite floats -/

theorem OVERFLOW_MIDPOINT_eq : OVERFLOW_MIDPOINT = 2 ^ 1024 - 2 ^ 970 := by
  have h1 : (18446744073709551616 : ℕ) ^ 16 = 2 ^ 1024 := by
    rw [show (18446744073709551616 : ℕ) = 2 ^ 64 from by norm_num, ← pow_mul]
  have h2 : (18446744073709551616 : ℕ) ^ 15 * 1024 = 2 ^ 970 := by
    rw [show (18446744073709551616 : ℕ) = 2 ^ 64 from by norm_num, ← pow_mul,
      show (1024 : ℕ) = 2 ^ 10 from by norm_num, ← pow_add]
  rw [OVERFLOW_MIDPOINT, h1, h2]

/-- C2 (code bug): _parse_size does not return a value on every string.  On
"infK", and already on the digits-only "1" followed by 320 zeros with a "K"
suffix, float() yields an infinity, the multiplication keeps it infinite and
round() raises OverflowError, which the code — catching only ValueError —
lets abort the caller.  On every input whose run does return, the returned
value is the total parser _parse_size, which behaves as the claim describes
at its stated points: "" and "-" give unknown and "12.5M" gives
round(12.5 * 1048576) = 13107200. -/
theorem C2_overflow_uncaught :
    _parse_size_run "infK" = SizeOutcome.overflowErr ∧
    _parse_size_run (String.mk ('1' :: (List.replicate 320 '0' ++ ['K']))) =
      SizeOutcome.overflowErr ∧
    (∀ s, _parse_size_run s = SizeOutcome.val (_parse_size s) ∨
      _parse_size_run s = SizeOutcome.overflowErr) ∧
    _parse_size "" = none ∧ _parse_size "-" = none ∧
    _parse_size "12.5M" = some 13107200 := by
  refine ⟨by decide, by decide, fun s => ?_, by decide, by decide, by decide⟩
  cases hr : _parse_size_run s with
  | val o =>
    left
    unfold _parse_size
    rw [hr]
  | overflowErr => exact Or.inr rfl

/-! ## C3: the per-anchor size policy -/

theorem scanCells_eq_find (cells : List String) :
    scanCells cells =
      match cells.find? cellSupplies with
      | some cell => _parse_size (String.mk (pyStrip cell.data))
      | none => none := by
  induction cells with
  | nil => rfl
  | cons cell rest ih =>
    simp only [scanCells, List.find?]
    by_cases h1 : String.mk (pyStrip cell.data) = ""
    · simp [cellSupplies, h1, ih]
    by_cases h2 : String.mk (pyStrip cell.data) = "-"
    · simp [cellSupplies, h1, h2, ih]
    cases hp : _parse_size (String.mk (pyStrip cell.data)) with
    | none => simp [cellSupplies, h1, h2, hp, ih]
    | some n =>
      by_cases hn : n = 0
      · simp [cellSupplies, h1, h2, hp, hn, ih]
      · have e1 : (String.mk (pyStrip cell.data) != "") = true := by
          simpa [bne_iff_ne] using h1
        have e2 : (String.mk (pyStrip cell.data) != "-") = true := by
          simpa [bne_iff_ne] using h2
        have e3 : (n != 0) = true := by simpa [bne_iff_ne] using hn
        simp [cellSupplies, hp, e1, e2, e3, h1, h2, hn]

/-- C3: the size for each matching anchor follows exactly the specified
policy: a row of at least 4 cells has its 4th cell parsed and that result
used as is; otherwise the first cell whose trimmed text is nonempty, not "-",
and parses to a non-zero size supplies the size; no row or no qualifying cell
gives unknown. -/
theorem C3_size_extraction_policy (row : Option (List String)) :
    rowSize row = rowSizeSpec row := by
  cases row with
  | none => rfl
  | some cells =>
    simp only [rowSize, rowSizeSpec]
    by_cases h : 4 ≤ cells.length
    · simp [h]
    · simp [h, scanCells_eq_find]

/-! ## Dict lemmas for the directory mapping -/

theorem dictLookup_cons (e : String × Option ℤ) (es : List (String × Option ℤ))
    (k : String) :
    dictLookup (e :: es) k = if e.1 = k then some e.2 else dictLookup es k := by
  by_cases h : e.1 = k
  · have hb : (e.1 == k) = true := by simpa using h
    simp [dictLookup, List.find?, h, hb]
  · have hb : (e.1 == k) = false := by simpa using h
    simp [dictLookup, List.find?, h, hb]

theorem dictLookup_dictInsert (d : List (String × Option ℤ)) (k k' : String)
    (v : Option ℤ) :
    dictLookup (dictInsert d k v) k' = if k = k' then some v else dictLookup d k' := by
  induction d with
  | nil =>
    by_cases h : k = k'
    · have hb : (k == k') = true := by simpa using h
      simp [dictInsert, dictLookup, List.find?, h, hb]
    · have hb : (k == k') = false := by simpa using h
      simp [dictInsert, dictLookup, List.find?, h, hb]
  | cons e es ih =>
    by_cases he : e.1 = k
    · by_cases h : k = k'
      · simp [dictInsert, he, dictLookup_cons, h]
      · have hek : ¬ e.1 = k' := by rw [he]; exact h
        simp [dictInsert, he, dictLookup_cons, h, hek]
    · by_cases h : k = k'
      · subst h
        simp [dictInsert, he, dictLookup_cons, ih]
      · simp [dictInsert, he, dictLookup_cons, h, ih]

theorem scrape_dir_eq_foldl_entries (anchors : List Anchor)
    (d : List (String × Option ℤ)) :
    anchors.foldl
        (fun d a =>
          match anchorEntry a with
          | some e => dictInsert d e.1 e.2
          | none => d) d =
      (anchors.filterMap anchorEntry).foldl (fun d e => dictInsert d e.1 e.2) d := by
  induction anchors generalizing d with
  | nil => rfl
  | cons a anchors ih =>
    cases ha : anchorEntry a <;> simp [List.filterMap_cons, ha, ih]

theorem dictLookup_foldl_entries (es : List (String × Option ℤ))
    (d : List (String × Option ℤ)) (k : String) :
    dictLookup (es.foldl (fun d e => dictInsert d e.1 e.2) d) k =
      match es.reverse.find? (fun e => e.1 == k) with
      | some e => some e.2
      | none => dictLookup d k := by
  induction es generalizing d with
  | nil => simp
  | cons e es ih =>
    simp only [List.foldl_cons, List.reverse_cons, List.find?_append, ih]
    cases hf : es.reverse.find? (fun x => x.1 == k) with
    | some x => simp [Option.or]
    | none =>
      by_cases h : e.1 = k
      · have hb : (e.1 == k) = true := by simpa using h
        simp [Option.or, dictLookup_dictInsert, List.find?, h, hb]
      · have hb : (e.1 == k) = false := by simpa using h
        simp [Option.or, dictLookup_dictInsert, List.find?, h, hb]

theorem scrape_lookup (anchors : List Anchor) (k : String) :
    dictLookup (scrape_dir (some anchors)) k =
      ((anchors.filterMap anchorEntry).reverse.find? (fun e => e.1 == k)).map
        Prod.snd := by
  simp only [scrape_dir]
  rw [scrape_dir_eq_foldl_entries, dictLookup_foldl_entries]
  cases hf : (anchors.filterMap anchorEntry).reverse.find? (fun e => e.1 == k) <;>
    simp [dictLookup, List.find?]

theorem mem_keys_dictInsert (d : List (String × Option ℤ)) (k : String)
    (v : Option ℤ) (k' : String) :
    k' ∈ (dictInsert d k v).map Prod.fst ↔ k' ∈ d.map Prod.fst ∨ k' = k := by
  induction d with
  | nil => simp [dictInsert]
  | cons e es ih =>
    by_cases he : e.1 = k
    · have hd : dictInsert (e :: es) k v = (k, v) :: es := by
        simp [dictInsert, he]
      rw [hd]
      simp only [List.map_cons, List.mem_cons, he]
      tauto
    · have hd : dictInsert (e :: es) k v = e :: dictInsert es k v := by
        simp [dictInsert, he]
      rw [hd]
      simp only [List.map_cons, List.mem_cons, ih]
      tauto

theorem nodup_keys_dictInsert (d : List (String × Option ℤ)) (k : String)
    (v : Option ℤ) (h : (d.map Prod.fst).Nodup) :
    ((dictInsert d k v).map Prod.fst).Nodup := by
  induction d with
  | nil => simp [dictInsert]
  | cons e es ih =>
    simp only [List.map_cons, List.nodup_cons] at h
    by_cases he : e.1 = k
    · have hd : dictInsert (e :: es) k v = (k, v) :: es := by
        simp [dictInsert, he]
      rw [hd]
      simp only [List.map_cons, List.nodup_cons]
      exact ⟨he ▸ h.1, h.2⟩
    · have hd : dictInsert (e :: es) k v = e :: dictInsert es k v := by
        simp [dictInsert, he]
      rw [hd]
      simp only [List.map_cons, List.nodup_cons]
      refine ⟨?_, ih h.2⟩
      rw [mem_keys_dictInsert]
      rintro (hc | hc)
      · exact h.1 hc
      · exact he hc

theorem nodup_keys_foldl (es : List (String × Option ℤ))
    (d : List (String × Option ℤ)) (h : (d.map Prod.fst).Nodup) :
    ((es.foldl (fun d e => dictInsert d e.1 e.2) d).map Prod.fst).Nodup := by
  induction es generalizing d with
  | nil => exact h
  | cons e es ih => exact ih _ (nodup_keys_dictInsert _ _ _ h)

/-! ## C4: last write wins within one page -/

/-- C4: a filename maps to the size of the latest-occurring anchor that
produced it (the first match over the reversed entry sequence), and the
mapping holds exactly one entry per filename (its keys are duplicate-free). -/
theorem C4_last_write_wins :
    (∀ (anchors : List Anchor) (k : String),
      dictLookup (scrape_dir (some anchors)) k =
        ((anchors.filterMap anchorEntry).reverse.find? (fun e => e.1 == k)).map
          Prod.snd) ∧
    (∀ anchors : List Anchor, ((scrape_dir (some anchors)).map Prod.fst).Nodup) := by
  refine ⟨scrape_lookup, fun anchors => ?_⟩
  simp only [scrape_dir]
  rw [scrape_dir_eq_foldl_entries]
  exact nodup_keys_foldl _ _ (by simp)

/-! ## C5: the anchor filter -/

/-- C5: a filename appears in the directory mapping exactly when some anchor
on the page has a stripped href that is not a navigation/sort token, ends
case-insensitively in ".zip", and whose basename is that filename; all other
anchors are skipped and contribute nothing. -/
theorem C5_anchor_filter (anchors : List Anchor) (k : String) :
    (dictLookup (scrape_dir (some anchors)) k).isSome = true ↔
      ∃ a ∈ anchors, keepHref (String.mk (pyStrip a.href.data)) = true ∧
        filenameOf (String.mk (pyStrip a.href.data)) = k := by
  rw [scrape_lookup, Option.isSome_map', List.find?_isSome]
  constructor
  · rintro ⟨e, he, hek⟩
    rw [List.mem_reverse] at he
    rcases List.mem_filterMap.mp he with ⟨a, ha, hae⟩
    unfold anchorEntry at hae
    by_cases hkeep : keepHref (String.mk (pyStrip a.href.data))
    · rw [if_pos hkeep] at hae
      refine ⟨a, ha, hkeep, ?_⟩
      have he1 : e.1 = k := by simpa using hek
      have hpair := Option.some.inj hae
      rw [← he1, ← hpair]
    · rw [if_neg hkeep] at hae
      exact absurd hae (by simp)
  · rintro ⟨a, ha, hkeep, hname⟩
    refine ⟨(filenameOf (String.mk (pyStrip a.href.data)), rowSize a.row), ?_, ?_⟩
    · rw [List.mem_reverse]
      exact List.mem_filterMap.mpr ⟨a, ha, by simp [anchorEntry, hkeep]⟩
    · simpa using hname

/-! ## String lemmas for the extension invariant -/

theorem zip_isPre_iff (m : List Char) :
    (['p', 'i', 'z', '.'].isPrefixOf m) = true ↔
      ∃ rest, m = 'p' :: 'i' :: 'z' :: '.' :: rest := by
  cases m with
  | nil => simp [List.isPrefixOf]
  | cons a m =>
    cases m with
    | nil => simp [List.isPrefixOf]
    | cons b m =>
      cases m with
      | nil => simp [List.isPrefixOf]
      | cons c m =>
        cases m with
        | nil => simp [List.isPrefixOf]
        | cons d m =>
          constructor
          · intro h
            simp only [List.isPrefixOf, Bool.and_eq_true, beq_iff_eq] at h
            obtain ⟨h1, h2, h3, h4, _⟩ := h
            exact ⟨m, by rw [← h1, ← h2, ← h3, ← h4]⟩
          · rintro ⟨rest, hr⟩
            simp only [List.cons.injEq] at hr
            obtain ⟨rfl, rfl, rfl, rfl, rfl⟩ := hr
            simp [List.isPrefixOf]

theorem endsWithZip_iff (cs : List Char) :
    endsWithZip cs = true ↔
      ∃ rest, cs.reverse.map Char.toLower = 'p' :: 'i' :: 'z' :: '.' :: rest := by
  have hrw : endsWithZip cs =
      (['p', 'i', 'z', '.'].isPrefixOf ((cs.map Char.toLower).reverse)) := rfl
  rw [hrw, ← List.map_reverse]
  exact zip_isPre_iff _

/-- The ".zip" suffix survives rstrip("/") followed by basename: the four
final characters lower to ".zip", so none of them is a slash. -/
theorem endsWithZip_basename_rstrip (cs : List Char) (h : endsWithZip cs = true) :
    endsWithZip (basename (rstripSlash cs)) = true := by
  rcases (endsWithZip_iff cs).mp h with ⟨rest, hr⟩
  obtain ⟨c1, t1, ht1, hl1, hm1⟩ := List.map_eq_cons_iff.mp hr
  obtain ⟨c2, t2, ht2, hl2, hm2⟩ := List.map_eq_cons_iff.mp hm1
  obtain ⟨c3, t3, ht3, hl3, hm3⟩ := List.map_eq_cons_iff.mp hm2
  obtain ⟨c4, t4, ht4, hl4, hm4⟩ := List.map_eq_cons_iff.mp hm3
  have hc1 : ¬ (c1 = '/') := fun hc => by rw [hc] at hl1; exact absurd hl1 (by decide)
  have hc2 : ¬ (c2 = '/') := fun hc => by rw [hc] at hl2; exact absurd hl2 (by decide)
  have hc3 : ¬ (c3 = '/') := fun hc => by rw [hc] at hl3; exact absurd hl3 (by decide)
  have hc4 : ¬ (c4 = '/') := fun hc => by rw [hc] at hl4; exact absurd hl4 (by decide)
  have hrev : cs.reverse = c1 :: c2 :: c3 :: c4 :: t4 := by
    rw [ht1, ht2, ht3, ht4]
  have hstrip : rstripSlash cs = cs := by
    unfold rstripSlash
    rw [hrev, List.dropWhile_cons]
    have hd : (decide (c1 = '/')) = false := by simp [hc1]
    rw [hd, ← hrev]
    simp
  rw [hstrip, endsWithZip_iff]
  refine ⟨(t4.takeWhile (fun c => decide (c ≠ '/'))).map Char.toLower, ?_⟩
  unfold basename
  rw [List.reverse_reverse, hrev]
  simp [List.takeWhile_cons, hc1, hc2, hc3, hc4, hl1, hl2, hl3, hl4]

/-! ## Membership in the scraped mapping -/

theorem mem_dictInsert (d : List (String × Option ℤ)) (k : String) (v : Option ℤ)
    (x : String × Option ℤ) (hx : x ∈ dictInsert d k v) : x ∈ d ∨ x = (k, v) := by
  induction d with
  | nil => simpa [dictInsert] using hx
  | cons e es ih =>
    by_cases he : e.1 = k
    · have hd : dictInsert (e :: es) k v = (k, v) :: es := by simp [dictInsert, he]
      rw [hd] at hx
      rcases List.mem_cons.mp hx with h' | h'
      · exact Or.inr h'
      · exact Or.inl (List.mem_cons_of_mem _ h')
    · have hd : dictInsert (e :: es) k v = e :: dictInsert es k v := by
        simp [dictInsert, he]
      rw [hd] at hx
      rcases List.mem_cons.mp hx with h' | h'
      · exact Or.inl (h' ▸ List.mem_cons_self _ _)
      · rcases ih h' with h'' | h''
        · exact Or.inl (List.mem_cons_of_mem _ h'')
        · exact Or.inr h''

theorem mem_foldl_entries (es : List (String × Option ℤ))
    (d : List (String × Option ℤ)) (x : String × Option ℤ)
    (hx : x ∈ es.foldl (fun d e => dictInsert d e.1 e.2) d) : x ∈ d ∨ x ∈ es := by
  induction es generalizing d with
  | nil => exact Or.inl hx
  | cons e es ih =>
    rcases ih _ hx with h | h
    · rcases mem_dictInsert _ _ _ _ h with h' | h'
      · exact Or.inl h'
      · exact Or.inr (by simp [h'])
    · exact Or.inr (List.mem_cons_of_mem _ h)

/-! ## C9: every key ends in ".zip" -/

/-- C9: every key of the mapping scrape_dir returns ends case-insensitively
in ".zip", for every input page (and for a failed fetch vacuously). -/
theorem C9_keys_end_in_zip (resp : Option (List Anchor)) :
    (scrape_dir resp).all (fun e => endsWithZip e.1.data) = true := by
  cases resp with
  | none => rfl
  | some anchors =>
    rw [List.all_eq_true]
    intro e he
    simp only [scrape_dir] at he
    rw [scrape_dir_eq_foldl_entries] at he
    rcases mem_foldl_entries _ _ _ he with h | h
    · exact absurd h (List.not_mem_nil e)
    · rcases List.mem_filterMap.mp h with ⟨a, _, hae⟩
      unfold anchorEntry at hae
      by_cases hkeep : keepHref (String.mk (pyStrip a.href.data))
      · rw [if_pos hkeep] at hae
        obtain rfl := (Option.some.inj hae).symm
        have hz : endsWithZip (pyStrip a.href.data) = true := by
          have := hkeep
          unfold keepHref at this
          exact (Bool.and_eq_true _ _).mp this |>.2
        exact endsWithZip_basename_rstrip _ hz
      · rw [if_neg hkeep] at hae
        exact absurd hae (by simp)

/-! ## C6: retry, backoff, and degradation to empty results -/

theorem _get_loop_succ (net : ℕ → Except String String) (url : String)
    (attempt fuel : ℕ) (sleeps : List Dec) :
    _get_loop net url attempt (fuel + 1) sleeps =
      match net attempt with
      | .ok body => ⟨some body, attempt, sleeps, none⟩
      | .error e =>
        if attempt = MAX_RETRIES then ⟨none, attempt, sleeps, some (warnMsg url e)⟩
        else _get_loop net url (attempt + 1) fuel (sleeps ++ [backoffDelay attempt]) :=
  rfl

theorem _get_loop_attempts_le (net : ℕ → Except String String) (url : String)
    (fuel attempt : ℕ) (sleeps : List Dec) (h : attempt ≤ MAX_RETRIES) :
    (_get_loop net url attempt fuel sleeps).attempts ≤ MAX_RETRIES := by
  induction fuel generalizing attempt sleeps with
  | zero => simp [_get_loop]
  | succ fuel ih =>
    cases hnet : net attempt with
    | ok body => simpa [_get_loop_succ, hnet] using h
    | error e =>
      by_cases ha : attempt = MAX_RETRIES
      · subst ha
        simp [_get_loop_succ, hnet]
      · simp only [_get_loop_succ, hnet, if_neg ha]
        exact ih (attempt + 1) _ (by omega)

/-- C6: when all three attempts fail, _get makes exactly MAX_RETRIES = 3
attempts, sleeps the doubling backoff sequence starting at RETRY_BACKOFF,
emits a diagnostic naming the URL and the last error, and returns no
response; _get never makes more than 3 attempts; and a caller receiving an
absent response degrades to an empty result (scrape_dir to the empty
mapping, list_years to the empty sequence). -/
theorem C6_retry_backoff_degradation (net : ℕ → Except String String)
    (url e1 e2 e3 : String) (h1 : net 1 = .error e1) (h2 : net 2 = .error e2)
    (h3 : net 3 = .error e3) :
    _get net url =
      ⟨none, 3, [backoffDelay 1, backoffDelay 2], some (warnMsg url e3)⟩ ∧
    MAX_RETRIES = 3 ∧
    backoffDelay 1 = RETRY_BACKOFF ∧
    (∀ n, 1 ≤ n → (backoffDelay (n + 1)).num = 2 * (backoffDelay n).num ∧
      (backoffDelay (n + 1)).exp = (backoffDelay n).exp) ∧
    (∀ (net' : ℕ → Except String String) (url' : String),
      (_get net' url').attempts ≤ MAX_RETRIES) ∧
    scrape_dir none = [] ∧ list_years none = [] := by
  refine ⟨?_, rfl, rfl, ?_, ?_, rfl, rfl⟩
  · have h0 : _get net url = _get_loop net url 1 (2 + 1) [] := rfl
    rw [h0]
    simp [_get_loop_succ, h1, h2, h3, MAX_RETRIES]
  · intro n hn
    refine ⟨?_, rfl⟩
    have hexp : n + 1 - 1 = (n - 1) + 1 := by omega
    simp only [backoffDelay, RETRY_BACKOFF]
    rw [hexp, pow_succ]
    ring
  · intro net' url'
    exact _get_loop_attempts_le net' url' MAX_RETRIES 1 [] (by decide)

theorem C6_retry_witness :
    _get (fun _ => .error "boom") "http://x/" =
      ⟨none, 3, [backoffDelay 1, backoffDelay 2],
        some (warnMsg "http://x/" "boom")⟩ :=
  (C6_retry_backoff_degradation (fun _ => .error "boom") "http://x/"
    "boom" "boom" "boom" rfl rfl rfl).1

/-! ## C7: record URLs resolve against their directory -/

/-- C7: every record build_records produces carries a url equal to its
filename joined onto the directory URL of the work unit that produced it,
whatever the completion order and fetch results. -/
theorem C7_url_resolved (join : String → String → String)
    (fetch : String → Option (List Anchor)) (order : List String)
    (rec : CatalogRecord) (hrec : rec ∈ build_records join fetch order) :
    ∃ yurl ∈ order, rec ∈ fetch_year join fetch yurl ∧
      rec.url = join yurl rec.filename := by
  rcases List.mem_flatMap.mp hrec with ⟨yurl, hy, hin⟩
  refine ⟨yurl, hy, hin, ?_⟩
  rcases List.mem_map.mp hin with ⟨e, _, he⟩
  rw [← he]

theorem C7_url_witness :
    ∃ yurl ∈ ["d/"],
      (⟨"a.zip", "d/a.zip", none⟩ : CatalogRecord) ∈
        fetch_year (fun a b => a ++ b) (fun _ => some [⟨"a.zip", none⟩]) yurl ∧
      (⟨"a.zip", "d/a.zip", none⟩ : CatalogRecord).url =
        (fun a b : String => a ++ b) yurl
          (⟨"a.zip", "d/a.zip", none⟩ : CatalogRecord).filename :=
  C7_url_resolved (fun a b => a ++ b) (fun _ => some [⟨"a.zip", none⟩]) ["d/"]
    ⟨"a.zip", "d/a.zip", none⟩ (by decide)

/-! ## C8: two-run determinism up to order -/

/-- C8: with the fetch layer returning the same page bodies both times, two
runs of build_records produce permutations of each other — in particular the
same set of records — whatever completion orders the two pools realise. -/
theorem C8_two_run_determinism (join : String → String → String)
    (fetch : String → Option (List Anchor)) (base_url frequency : String)
    (order1 order2 : List String)
    (h1 : order1.Perm (buildTasks fetch base_url frequency))
    (h2 : order2.Perm (buildTasks fetch base_url frequency)) :
    (build_records join fetch order1).Perm (build_records join fetch order2) ∧
    ∀ rec : CatalogRecord,
      rec ∈ build_records join fetch order1 ↔
        rec ∈ build_records join fetch order2 := by
  have hp : order1.Perm order2 := h1.trans h2.symm
  have hb : (build_records join fetch order1).Perm (build_records join fetch order2) :=
    List.Perm.flatMap_right (fetch_year join fetch) hp
  exact ⟨hb, fun rec => hb.mem_iff⟩

theorem C8_determinism_witness :
    (build_records (fun a b => a ++ b)
        (fun u => if u = "b/ppt/monthly/"
          then some [⟨"2020/", none⟩, ⟨"2021/", none⟩] else none)
        (buildTasks
          (fun u => if u = "b/ppt/monthly/"
            then some [⟨"2020/", none⟩, ⟨"2021/", none⟩] else none)
          "b" "monthly")).Perm
      (build_records (fun a b => a ++ b)
        (fun u => if u = "b/ppt/monthly/"
          then some [⟨"2020/", none⟩, ⟨"2021/", none⟩] else none)
        ((buildTasks
          (fun u => if u = "b/ppt/monthly/"
            then some [⟨"2020/", none⟩, ⟨"2021/", none⟩] else none)
          "b" "monthly").reverse)) :=
  (C8_two_run_determinism (fun a b => a ++ b)
    (fun u => if u = "b/ppt/monthly/"
      then some [⟨"2020/", none⟩, ⟨"2021/", none⟩] else none)
    "b" "monthly" _ _ (List.Perm.refl _) (List.reverse_perm _)).1

/-! ## C10: negative parses -/

/-- C10: _parse_size can return negative integers — parse("-5") = -5 and
parse("-2K") = -2048 — so a size_bytes value is not guaranteed non-negative. -/
theorem C10_negative_sizes :
    _parse_size "-5" = some (-5) ∧ _parse_size "-2K" = some (-2048) ∧
    (-5 : ℤ) < 0 ∧ (-2048 : ℤ) < 0 := by
  decide

end Prism
